import Mathlib

/-!
Verification of the filter-and-aggregate recompute step of the
Interactive-Visualizations repository (src/BokehDashboard.py and
src/DashInteractive.py), as a shallow embedding in Lean 4.

Numeric columns (`sales`, `profit` and the derived margin columns) are
embedded as exact rationals.  Timestamps are embedded as natural numbers
counting 12-hour periods since the start date (`pd.date_range(...,
freq='12h')` in the Bokeh script); a calendar day is then `date / 2`.
The Dash script uses `freq='D'`, i.e. one record per day, so there its
raw `date` values are used directly as group keys.

A pandas DataFrame row is a `Record`; a DataFrame is a `List Record`
(ordered, duplicates allowed).  `df[mask]` is `List.filter`,
`groupby(k)[c].agg` is a map over the sorted distinct keys (pandas
`groupby` with the default `sort=True` sorts the group keys ascending
and drops absent keys), and `groupby(pd.Grouper(key='date', freq='D'))`
is a map over every daily bin between the minimum and maximum day of the
frame (a frequency `Grouper` resamples, so interior empty bins appear,
with an empty-group sum of 0).
-/

namespace InteractiveViz

/-- One row of the synthetic DataFrame, with the stored derived columns
(`profit_margin`, `abs_margin`, `size`) that the scripts add at
construction time (src/BokehDashboard.py lines 24-27,
src/DashInteractive.py lines 18-22).  The purely cosmetic `color` /
`margin_sign` columns are omitted. -/
structure Record where
  sales : ℚ
  profit : ℚ
  region : String
  category : String
  date : ℕ
  profit_margin : ℚ
  abs_margin : ℚ
  size : ℚ
deriving DecidableEq, Repr

/-- `Series.clip(lower=5, upper=40)` as used for the pixel-size column
(src/BokehDashboard.py lines 27 and 136). -/
def clipSize (x : ℚ) : ℚ := min (max x 5) 40

/-- Row construction from the base columns, computing the derived
columns exactly as the scripts do:
`profit_margin = (profit / sales.replace(0, 1)) * 100`
(src/BokehDashboard.py line 24, src/DashInteractive.py line 18),
`abs_margin = |profit_margin|`, `size = abs_margin.clip(5, 40)`. -/
def mkRecord (sales profit : ℚ) (region category : String) (date : ℕ) : Record :=
  let pm : ℚ := (profit / (if sales = 0 then 1 else sales)) * 100
  { sales := sales, profit := profit, region := region, category := category,
    date := date, profit_margin := pm, abs_margin := |pm|, size := clipSize |pm| }

/-- The Filter State: selected region subset, category subset and
inclusive sales range, as read from the MultiChoice / Dropdown / slider
widgets. -/
structure FilterState where
  regions : List String
  categories : List String
  lo : ℚ
  hi : ℚ
deriving DecidableEq, Repr

/-- The boolean mask of src/BokehDashboard.py lines 129-134 and
src/DashInteractive.py lines 100-103:
`region.isin(R) & category.isin(C) & (sales >= lo) & (sales <= hi)`. -/
def recordMatches (fs : FilterState) (r : Record) : Bool :=
  decide (r.region ∈ fs.regions) && decide (r.category ∈ fs.categories) &&
    decide (fs.lo ≤ r.sales) && decide (r.sales ≤ fs.hi)

/-- `df[mask]`: the filtered row subset (src/BokehDashboard.py line 135,
src/DashInteractive.py lines 99-104). -/
def filteredSubset (df : List Record) (fs : FilterState) : List Record :=
  df.filter (recordMatches fs)

/-- The rows of a frame whose group column `key` equals `k`. -/
def fiber {κ : Type} [LinearOrder κ] [DecidableEq κ] (key : Record → κ) (k : κ) (rows : List Record) :
    List Record :=
  rows.filter (fun r => key r = k)

/-- The group keys of `groupby` with the default `sort=True`: the
distinct key values present in the frame, sorted ascending. -/
def groupKeys {κ : Type} [LinearOrder κ] [DecidableEq κ]
    (key : Record → κ) (rows : List Record) : List κ :=
  List.insertionSort (fun a b => a ≤ b) ((rows.map key).dedup)

/-- `rows.groupby(key)[val].sum().reset_index()` with default sorting. -/
def groupSumBy {κ : Type} [LinearOrder κ] [DecidableEq κ]
    (key : Record → κ) (val : Record → ℚ) (rows : List Record) : List (κ × ℚ) :=
  (groupKeys key rows).map (fun k => (k, ((fiber key k rows).map val).sum))

/-- Arithmetic mean of a list of rationals (pandas `Series.mean`). -/
def listMean (xs : List ℚ) : ℚ := xs.sum / (xs.length : ℚ)

/-- `rows.groupby(key)[val].mean().reset_index()` with default sorting. -/
def groupMeanBy {κ : Type} [LinearOrder κ] [DecidableEq κ]
    (key : Record → κ) (val : Record → ℚ) (rows : List Record) : List (κ × ℚ) :=
  (groupKeys key rows).map (fun k => (k, listMean ((fiber key k rows).map val)))

/-- Calendar day of a record in the Bokeh script: dates there are 12-hour
periods, so day bins pair up consecutive date values. -/
def day (r : Record) : ℕ := r.date / 2

/-- Minimum of a list of naturals (0 on the empty list; only used on
nonempty lists). -/
def natListMin : List ℕ → ℕ
  | [] => 0
  | x :: xs => xs.foldl min x

/-- Maximum of a list of naturals (0 on the empty list). -/
def natListMax : List ℕ → ℕ
  | [] => 0
  | x :: xs => xs.foldl max x

/-- The daily bins produced by `groupby(pd.Grouper(key='date', freq='D'))`
on a frame: every calendar day from the frame's first day to its last
day (a frequency Grouper resamples, so interior days with no rows still
yield a bin); no bins at all for an empty frame. -/
def dayBins (rows : List Record) : List ℕ :=
  if rows.isEmpty then []
  else
    let ds := rows.map day
    List.range' (natListMin ds) (natListMax ds - natListMin ds + 1)

/-- The Bokeh line-chart aggregate
`filtered.groupby(pd.Grouper(key='date', freq='D'))['sales'].sum().reset_index()`
(src/BokehDashboard.py lines 142-146).  An empty bin sums to 0. -/
def bokehLineAgg (rows : List Record) : List (ℕ × ℚ) :=
  (dayBins rows).map (fun k => (k, ((fiber day k rows).map Record.sales).sum))

/-- The Bokeh bar-chart aggregate
`filtered.groupby('category')['profit'].mean().reset_index()`
(src/BokehDashboard.py lines 150-154). -/
def bokehBarAgg (rows : List Record) : List (String × ℚ) :=
  groupMeanBy Record.category Record.profit rows

/-- `filtered['size'] = filtered['abs_margin'].clip(5, 40)` applied to one
row of the copied frame (src/BokehDashboard.py line 136). -/
def sizeUpd (r : Record) : Record := { r with size := clipSize r.abs_margin }

/-- The copied filtered frame after its `size` column is rewritten
(src/BokehDashboard.py lines 135-136). -/
def withSize (rows : List Record) : List Record := rows.map sizeUpd

/-- The mutable objects the Bokeh callback touches: the global DataFrame
`df` and the three ColumnDataSource contents. -/
structure GlobalState where
  df : List Record
  scatter_data : List Record
  line_data : List (ℕ × ℚ)
  bar_data : List (String × ℚ)
deriving DecidableEq, Repr

/-- The Bokeh callback `update_all` (src/BokehDashboard.py lines 127-156):
filter `df` by the mask, copy, rewrite the `size` column on the copy,
publish the copy to `scatter_source`, and publish the two aggregates of
the copy to `line_source` and `bar_source`.  `df` is never assigned. -/
def update_all (s : GlobalState) (fs : FilterState) : GlobalState :=
  let filtered := withSize (filteredSubset s.df fs)
  { s with
    scatter_data := filtered
    line_data := bokehLineAgg filtered
    bar_data := bokehBarAgg filtered }

/-- The Dash line-chart aggregate
`filtered_df.groupby('date')['sales'].sum().reset_index()`
(src/DashInteractive.py line 130): group keys are the raw date values
present, sorted ascending. -/
def dashLineAgg (df : List Record) (fs : FilterState) : List (ℕ × ℚ) :=
  groupSumBy Record.date Record.sales (filteredSubset df fs)

/-- The Dash bar-chart aggregate
`filtered_df.groupby('region')['profit'].mean().reset_index()`
(src/DashInteractive.py line 121). -/
def dashBarAgg (df : List Record) (fs : FilterState) : List (String × ℚ) :=
  groupMeanBy Record.region Record.profit (filteredSubset df fs)

/-- Minimum of the `sales` column (`df['sales'].min()`), used as the
slider lower bound; 0 on an empty frame (the scripts never build one). -/
def salesMin : List Record → ℚ
  | [] => 0
  | r :: rs => rs.foldl (fun m x => min m x.sales) r.sales

/-- Maximum of the `sales` column (`df['sales'].max()`). -/
def salesMax : List Record → ℚ
  | [] => 0
  | r :: rs => rs.foldl (fun m x => max m x.sales) r.sales

/-- The Filter State selecting all four regions, all four categories and
the full sales range, i.e. the initial widget values
(src/BokehDashboard.py lines 92-109, src/DashInteractive.py lines 35-64). -/
def fullFilter (df : List Record) : FilterState :=
  { regions := ["North", "South", "East", "West"]
    categories := ["Electronics", "Clothing", "Food", "Books"]
    lo := salesMin df
    hi := salesMax df }

/-! ### Basic lemmas about the filter step -/

/-- Membership in the filtered subset unfolds to the three mask
constraints. -/
theorem mem_filteredSubset {df : List Record} {fs : FilterState} {r : Record} :
    r ∈ filteredSubset df fs ↔
      r ∈ df ∧ r.region ∈ fs.regions ∧ r.category ∈ fs.categories ∧
        fs.lo ≤ r.sales ∧ r.sales ≤ fs.hi := by
  simp [filteredSubset, recordMatches, List.mem_filter, and_assoc]

/-- `sizeUpd` changes only the `size` field. -/
theorem sizeUpd_sales (r : Record) : (sizeUpd r).sales = r.sales := rfl

theorem sizeUpd_profit (r : Record) : (sizeUpd r).profit = r.profit := rfl

theorem sizeUpd_region (r : Record) : (sizeUpd r).region = r.region := rfl

theorem sizeUpd_category (r : Record) : (sizeUpd r).category = r.category := rfl

theorem sizeUpd_date (r : Record) : (sizeUpd r).date = r.date := rfl

theorem day_sizeUpd (r : Record) : day (sizeUpd r) = day r := rfl

/-- Projecting a column unaffected by the size rewrite commutes with
`withSize`. -/
theorem map_withSize {α : Type} (f : Record → α) (hf : ∀ r, f (sizeUpd r) = f r)
    (rows : List Record) : (withSize rows).map f = rows.map f := by
  simp only [withSize, List.map_map]
  exact List.map_congr_left (fun r _ => hf r)

/-- Filtering on a column unaffected by the size rewrite commutes with
`withSize`. -/
theorem fiber_withSize {κ : Type} [LinearOrder κ] [DecidableEq κ] (key : Record → κ)
    (hk : ∀ r, key (sizeUpd r) = key r) (k : κ) (rows : List Record) :
    fiber key k (withSize rows) = withSize (fiber key k rows) := by
  simp only [fiber, withSize, List.filter_map]
  congr 1
  apply List.filter_congr
  intro r _
  simp [Function.comp, hk r]

/-! ### Summation over group fibers -/

/-- If `a` occurs nowhere in `keys`, the indicator sum vanishes. -/
theorem sum_ite_of_not_mem {κ : Type} [DecidableEq κ] (a : κ) (v : ℚ) :
    ∀ keys : List κ, a ∉ keys →
      (keys.map (fun k => if a = k then v else 0)).sum = 0 := by
  intro keys
  induction keys with
  | nil => simp
  | cons k ks ih =>
    intro h
    have hak : a ≠ k := fun hcontra => h (hcontra ▸ List.mem_cons_self k ks)
    have hks : a ∉ ks := fun hcontra => h (List.mem_cons_of_mem k hcontra)
    simp [hak, ih hks]

/-- If `a` occurs exactly once in `keys`, the indicator sum picks out `v`. -/
theorem sum_ite_of_nodup {κ : Type} [DecidableEq κ] (a : κ) (v : ℚ) :
    ∀ keys : List κ, keys.Nodup → a ∈ keys →
      (keys.map (fun k => if a = k then v else 0)).sum = v := by
  intro keys
  induction keys with
  | nil => intro _ h; exact absurd h (List.not_mem_nil a)
  | cons k ks ih =>
    intro hnd hmem
    rcases List.mem_cons.mp hmem with h | h
    · subst h
      have : a ∉ ks := (List.nodup_cons.mp hnd).1
      simp [sum_ite_of_not_mem a v ks this]
    · have hak : a ≠ k := by
        rintro rfl
        exact (List.nodup_cons.mp hnd).1 h
      simp [hak, ih (List.nodup_cons.mp hnd).2 h]

/-- Pointwise addition distributes over a mapped sum. -/
theorem sum_map_add {κ : Type} (f g : κ → ℚ) :
    ∀ l : List κ, (l.map (fun k => f k + g k)).sum = (l.map f).sum + (l.map g).sum := by
  intro l
  induction l with
  | nil => simp
  | cons k ks ih => simp [ih]; ring

/-- Partition lemma: summing a column fiber-by-fiber over a duplicate-free
key list that covers every row recovers the column's total sum. -/
theorem sum_fibers {κ : Type} [LinearOrder κ] [DecidableEq κ] (key : Record → κ) (val : Record → ℚ)
    (keys : List κ) :
    ∀ rows : List Record, keys.Nodup → (∀ r ∈ rows, key r ∈ keys) →
      (keys.map (fun k => ((fiber key k rows).map val).sum)).sum = (rows.map val).sum := by
  intro rows
  induction rows with
  | nil =>
    intro _ _
    simp only [List.map_nil, List.sum_nil]
    apply List.sum_eq_zero
    intro x hx
    rcases List.mem_map.mp hx with ⟨k, _, hk⟩
    simpa [fiber] using hk.symm
  | cons r rs ih =>
    intro hnd hcov
    have hfib : ∀ k, ((fiber key k (r :: rs)).map val).sum =
        (if key r = k then val r else 0) + ((fiber key k rs).map val).sum := by
      intro k
      by_cases h : key r = k
      · simp [fiber, List.filter_cons, h]
      · simp [fiber, List.filter_cons, h]
    calc (keys.map (fun k => ((fiber key k (r :: rs)).map val).sum)).sum
        = (keys.map (fun k =>
            (if key r = k then val r else 0) + ((fiber key k rs).map val).sum)).sum := by
          congr 1
          exact List.map_congr_left (fun k _ => hfib k)
      _ = (keys.map (fun k => if key r = k then val r else 0)).sum +
            (keys.map (fun k => ((fiber key k rs).map val).sum)).sum :=
          sum_map_add _ _ keys
      _ = val r + (rs.map val).sum := by
          rw [sum_ite_of_nodup (key r) (val r) keys hnd (hcov r (List.mem_cons_self r rs)),
            ih hnd (fun x hx => hcov x (List.mem_cons_of_mem r hx))]
      _ = ((r :: rs).map val).sum := by simp

/-! ### Group keys -/

/-- A key appears among the group keys iff some row carries it. -/
theorem mem_groupKeys {κ : Type} [LinearOrder κ] [DecidableEq κ] {key : Record → κ}
    {rows : List Record} {k : κ} :
    k ∈ groupKeys key rows ↔ ∃ r ∈ rows, key r = k := by
  unfold groupKeys
  rw [(List.perm_insertionSort _ _).mem_iff, List.mem_dedup, List.mem_map]

/-- The group keys are duplicate-free. -/
theorem nodup_groupKeys {κ : Type} [LinearOrder κ] [DecidableEq κ] (key : Record → κ)
    (rows : List Record) : (groupKeys key rows).Nodup :=
  ((List.perm_insertionSort _ _).nodup_iff).mpr (List.nodup_dedup _)

/-- The group keys are in strictly ascending order. -/
theorem pairwise_lt_groupKeys {κ : Type} [LinearOrder κ] [DecidableEq κ] (key : Record → κ)
    (rows : List Record) : (groupKeys key rows).Pairwise (· < ·) := by
  have hs : (groupKeys key rows).Pairwise (fun a b => a ≤ b) :=
    List.sorted_insertionSort _ _
  have hn : (groupKeys key rows).Pairwise (· ≠ ·) := nodup_groupKeys key rows
  exact (hs.and hn).imp (fun h => lt_of_le_of_ne h.1 h.2)

/-! ### Daily bins and fold extrema -/

theorem foldl_min_le_init : ∀ (xs : List ℕ) (a : ℕ), xs.foldl min a ≤ a := by
  intro xs
  induction xs with
  | nil => intro a; exact le_refl a
  | cons y ys ih =>
    intro a
    exact le_trans (ih (min a y)) (min_le_left a y)

theorem foldl_min_le_mem : ∀ (xs : List ℕ) (a x : ℕ), x ∈ xs → xs.foldl min a ≤ x := by
  intro xs
  induction xs with
  | nil => intro a x h; exact absurd h (List.not_mem_nil x)
  | cons y ys ih =>
    intro a x h
    rcases List.mem_cons.mp h with rfl | h
    · exact le_trans (foldl_min_le_init ys (min a x)) (min_le_right a x)
    · exact ih (min a y) x h

theorem init_le_foldl_max : ∀ (xs : List ℕ) (a : ℕ), a ≤ xs.foldl max a := by
  intro xs
  induction xs with
  | nil => intro a; exact le_refl a
  | cons y ys ih =>
    intro a
    exact le_trans (le_max_left a y) (ih (max a y))

theorem mem_le_foldl_max : ∀ (xs : List ℕ) (a x : ℕ), x ∈ xs → x ≤ xs.foldl max a := by
  intro xs
  induction xs with
  | nil => intro a x h; exact absurd h (List.not_mem_nil x)
  | cons y ys ih =>
    intro a x h
    rcases List.mem_cons.mp h with rfl | h
    · exact le_trans (le_max_right a x) (init_le_foldl_max ys (max a x))
    · exact ih (max a y) x h

/-- The list minimum bounds every member from below. -/
theorem natListMin_le {x : ℕ} {xs : List ℕ} (h : x ∈ xs) : natListMin xs ≤ x := by
  cases xs with
  | nil => exact absurd h (List.not_mem_nil x)
  | cons z zs =>
    rcases List.mem_cons.mp h with h | h
    · exact h ▸ foldl_min_le_init zs z
    · exact foldl_min_le_mem zs z x h

/-- The list maximum bounds every member from above. -/
theorem le_natListMax {x : ℕ} {xs : List ℕ} (h : x ∈ xs) : x ≤ natListMax xs := by
  cases xs with
  | nil => exact absurd h (List.not_mem_nil x)
  | cons z zs =>
    rcases List.mem_cons.mp h with h | h
    · exact h ▸ init_le_foldl_max zs z
    · exact mem_le_foldl_max zs z x h

/-- Every row's calendar day falls in one of the daily bins. -/
theorem day_mem_dayBins {rows : List Record} {r : Record} (h : r ∈ rows) :
    day r ∈ dayBins rows := by
  have hne : rows.isEmpty = false := by
    cases rows with
    | nil => exact absurd h (List.not_mem_nil r)
    | cons a l => rfl
  have hmem : day r ∈ rows.map day := List.mem_map.mpr ⟨r, h, rfl⟩
  have hlo : natListMin (rows.map day) ≤ day r := natListMin_le hmem
  have hhi : day r ≤ natListMax (rows.map day) := le_natListMax hmem
  unfold dayBins
  rw [hne]
  simp only [Bool.false_eq_true, if_false, List.mem_range']
  exact ⟨day r - natListMin (rows.map day), by omega, by omega⟩

/-- The daily bins are duplicate-free. -/
theorem nodup_dayBins (rows : List Record) : (dayBins rows).Nodup := by
  unfold dayBins
  by_cases h : rows.isEmpty
  · simp [h]
  · simp only [h, if_false]
    exact List.nodup_range' _ _

/-- The daily bins are in strictly ascending order. -/
theorem pairwise_lt_dayBins (rows : List Record) :
    (dayBins rows).Pairwise (· < ·) := by
  unfold dayBins
  by_cases h : rows.isEmpty
  · simp [h]
  · simp only [h, if_false]
    exact List.pairwise_lt_range' _ _

/-! ### The size rewrite does not disturb the aggregates -/

/-- The daily bins of the size-rewritten frame coincide with those of the
original frame. -/
theorem dayBins_withSize (rows : List Record) : dayBins (withSize rows) = dayBins rows := by
  cases rows with
  | nil => rfl
  | cons r rs =>
    unfold dayBins
    have h1 : (withSize (r :: rs)).isEmpty = false := rfl
    have h2 : ((r :: rs) : List Record).isEmpty = false := rfl
    rw [h1, h2, map_withSize day day_sizeUpd]

/-- The Bokeh line aggregate of the size-rewritten frame equals that of
the original frame. -/
theorem bokehLineAgg_withSize (rows : List Record) :
    bokehLineAgg (withSize rows) = bokehLineAgg rows := by
  unfold bokehLineAgg
  rw [dayBins_withSize]
  apply List.map_congr_left
  intro k _
  rw [fiber_withSize day day_sizeUpd, map_withSize Record.sales sizeUpd_sales]

/-- Group keys of a size-invariant column are unchanged by the size
rewrite. -/
theorem groupKeys_withSize {κ : Type} [LinearOrder κ] [DecidableEq κ] (key : Record → κ)
    (hk : ∀ r, key (sizeUpd r) = key r) (rows : List Record) :
    groupKeys key (withSize rows) = groupKeys key rows := by
  unfold groupKeys
  rw [map_withSize key hk]

/-- The Bokeh bar aggregate of the size-rewritten frame equals that of
the original frame. -/
theorem bokehBarAgg_withSize (rows : List Record) :
    bokehBarAgg (withSize rows) = bokehBarAgg rows := by
  unfold bokehBarAgg groupMeanBy
  rw [groupKeys_withSize Record.category sizeUpd_category]
  apply List.map_congr_left
  intro k _
  rw [fiber_withSize Record.category sizeUpd_category,
    map_withSize Record.profit sizeUpd_profit]

/-! ### Shape of the aggregates -/

/-- The first components of the Bokeh line aggregate are the daily bins. -/
theorem map_fst_bokehLineAgg (rows : List Record) :
    (bokehLineAgg rows).map Prod.fst = dayBins rows := by
  unfold bokehLineAgg
  rw [List.map_map]
  exact List.map_id _

/-- The first components of a group-by-sum are the group keys. -/
theorem map_fst_groupSumBy {κ : Type} [LinearOrder κ] [DecidableEq κ]
    (key : Record → κ) (val : Record → ℚ) (rows : List Record) :
    (groupSumBy key val rows).map Prod.fst = groupKeys key rows := by
  unfold groupSumBy
  rw [List.map_map]
  exact List.map_id _

/-- The first components of a group-by-mean are the group keys. -/
theorem map_fst_groupMeanBy {κ : Type} [LinearOrder κ] [DecidableEq κ]
    (key : Record → κ) (val : Record → ℚ) (rows : List Record) :
    (groupMeanBy key val rows).map Prod.fst = groupKeys key rows := by
  unfold groupMeanBy
  rw [List.map_map]
  exact List.map_id _

/-- A pair in a group-by-mean carries the fiber mean of its key. -/
theorem snd_of_mem_groupMeanBy {κ : Type} [LinearOrder κ] [DecidableEq κ]
    {key : Record → κ} {val : Record → ℚ} {rows : List Record} {g : κ} {v : ℚ}
    (h : (g, v) ∈ groupMeanBy key val rows) :
    v = listMean ((fiber key g rows).map val) := by
  unfold groupMeanBy at h
  rcases List.mem_map.mp h with ⟨k, _, hk⟩
  rw [Prod.ext_iff] at hk
  obtain ⟨hk1, hk2⟩ := hk
  simp only at hk1 hk2
  rw [← hk2, hk1]

/-- The Bokeh line aggregate's values sum to the frame's sales total. -/
theorem bokehLineAgg_sum (rows : List Record) :
    ((bokehLineAgg rows).map Prod.snd).sum = (rows.map Record.sales).sum := by
  unfold bokehLineAgg
  rw [List.map_map]
  exact sum_fibers day Record.sales (dayBins rows) rows (nodup_dayBins rows)
    (fun r hr => day_mem_dayBins hr)

/-- A group-by-sum's values sum to the frame's column total. -/
theorem groupSumBy_sum {κ : Type} [LinearOrder κ] [DecidableEq κ]
    (key : Record → κ) (val : Record → ℚ) (rows : List Record) :
    ((groupSumBy key val rows).map Prod.snd).sum = (rows.map val).sum := by
  unfold groupSumBy
  rw [List.map_map]
  exact sum_fibers key val (groupKeys key rows) rows (nodup_groupKeys key rows)
    (fun r hr => mem_groupKeys.mpr ⟨r, hr, rfl⟩)

/-! ### Bounds of the sales column -/

theorem foldl_salesMin_le_init : ∀ (xs : List Record) (a : ℚ),
    xs.foldl (fun m x => min m x.sales) a ≤ a := by
  intro xs
  induction xs with
  | nil => intro a; exact le_refl a
  | cons y ys ih =>
    intro a
    exact le_trans (ih (min a y.sales)) (min_le_left a y.sales)

theorem foldl_salesMin_le_mem : ∀ (xs : List Record) (a : ℚ) (r : Record),
    r ∈ xs → xs.foldl (fun m x => min m x.sales) a ≤ r.sales := by
  intro xs
  induction xs with
  | nil => intro a r h; exact absurd h (List.not_mem_nil r)
  | cons y ys ih =>
    intro a r h
    rcases List.mem_cons.mp h with rfl | h
    · exact le_trans (foldl_salesMin_le_init ys (min a r.sales)) (min_le_right a r.sales)
    · exact ih (min a y.sales) r h

theorem init_le_foldl_salesMax : ∀ (xs : List Record) (a : ℚ),
    a ≤ xs.foldl (fun m x => max m x.sales) a := by
  intro xs
  induction xs with
  | nil => intro a; exact le_refl a
  | cons y ys ih =>
    intro a
    exact le_trans (le_max_left a y.sales) (ih (max a y.sales))

theorem mem_le_foldl_salesMax : ∀ (xs : List Record) (a : ℚ) (r : Record),
    r ∈ xs → r.sales ≤ xs.foldl (fun m x => max m x.sales) a := by
  intro xs
  induction xs with
  | nil => intro a r h; exact absurd h (List.not_mem_nil r)
  | cons y ys ih =>
    intro a r h
    rcases List.mem_cons.mp h with rfl | h
    · exact le_trans (le_max_right a r.sales) (init_le_foldl_salesMax ys (max a r.sales))
    · exact ih (max a y.sales) r h

/-- `df['sales'].min()` bounds every record's sales from below. -/
theorem salesMin_le {df : List Record} {r : Record} (h : r ∈ df) :
    salesMin df ≤ r.sales := by
  cases df with
  | nil => exact absurd h (List.not_mem_nil r)
  | cons z zs =>
    rcases List.mem_cons.mp h with rfl | h
    · exact foldl_salesMin_le_init zs r.sales
    · exact foldl_salesMin_le_mem zs z.sales r h

/-- `df['sales'].max()` bounds every record's sales from above. -/
theorem le_salesMax {df : List Record} {r : Record} (h : r ∈ df) :
    r.sales ≤ salesMax df := by
  cases df with
  | nil => exact absurd h (List.not_mem_nil r)
  | cons z zs =>
    rcases List.mem_cons.mp h with rfl | h
    · exact init_le_foldl_salesMax zs r.sales
    · exact mem_le_foldl_salesMax zs z.sales r h

/-! ### The claims -/

/-- C1: for every Filter State, the filtered subset produced by the
recompute callback is a subset of the Dataset, and a Dataset record
appears in it iff its region is in the selected region set, its category
is in the selected category set, and its sales lie in the inclusive
range. -/
theorem filtered_subset_characterization (df : List Record) (fs : FilterState)
    (r : Record) :
    r ∈ filteredSubset df fs ↔
      r ∈ df ∧ r.region ∈ fs.regions ∧ r.category ∈ fs.categories ∧
        fs.lo ≤ r.sales ∧ r.sales ≤ fs.hi :=
  mem_filteredSubset

/-- C2: for every Filter State, the sum of the `sales` values over all
rows of the time-series aggregate equals the sum of the sale-amount
column over the filtered subset, in both the Bokeh and the Dash
variants. -/
theorem lineAgg_sum_conservation (df : List Record) (fs : FilterState) :
    ((bokehLineAgg (withSize (filteredSubset df fs))).map Prod.snd).sum
        = ((filteredSubset df fs).map Record.sales).sum
    ∧ ((dashLineAgg df fs).map Prod.snd).sum
        = ((filteredSubset df fs).map Record.sales).sum := by
  constructor
  · rw [bokehLineAgg_withSize, bokehLineAgg_sum]
  · unfold dashLineAgg
    rw [groupSumBy_sum]

/-- C3: for every Filter State and group key, the categorical aggregate's
value is the arithmetic mean of `profit` over exactly the filtered
records with that key (`category` in the Bokeh variant, `region` in the
Dash variant), and a key appears in the aggregate iff some filtered
record carries it. -/
theorem barAgg_mean_correct (df : List Record) (fs : FilterState) (g : String) :
    (g ∈ (bokehBarAgg (withSize (filteredSubset df fs))).map Prod.fst ↔
        ∃ r ∈ filteredSubset df fs, r.category = g)
    ∧ (∀ v : ℚ, (g, v) ∈ bokehBarAgg (withSize (filteredSubset df fs)) →
        v = listMean ((fiber Record.category g (filteredSubset df fs)).map Record.profit))
    ∧ (g ∈ (dashBarAgg df fs).map Prod.fst ↔
        ∃ r ∈ filteredSubset df fs, r.region = g)
    ∧ (∀ v : ℚ, (g, v) ∈ dashBarAgg df fs →
        v = listMean ((fiber Record.region g (filteredSubset df fs)).map Record.profit)) := by
  refine ⟨?_, ?_, ?_, ?_⟩
  · rw [bokehBarAgg_withSize]
    unfold bokehBarAgg
    rw [map_fst_groupMeanBy]
    exact mem_groupKeys
  · intro v hv
    rw [bokehBarAgg_withSize] at hv
    exact snd_of_mem_groupMeanBy hv
  · unfold dashBarAgg
    rw [map_fst_groupMeanBy]
    exact mem_groupKeys
  · intro v hv
    exact snd_of_mem_groupMeanBy hv

/-- Concrete one-record frame used to exercise the C3 theorem. -/
def wDf3 : List Record := [mkRecord 10 4 "North" "Books" 0]

/-- Concrete Filter State used to exercise the C3 theorem. -/
def wFs3 : FilterState := ⟨["North"], ["Books"], 0, 100⟩

/-- C3 witness: on a one-record frame the Dash bar aggregate publishes
the pair `("North", 4)`, whose value the theorem identifies with the
fiber mean. -/
theorem barAgg_mean_correct_witness :
    (4 : ℚ) = listMean ((fiber Record.region "North"
      (filteredSubset wDf3 wFs3)).map Record.profit) := by
  have hmean : listMean ((fiber Record.region "North"
      (filteredSubset wDf3 wFs3)).map Record.profit) = 4 := by
    have h1 : (fiber Record.region "North"
        (filteredSubset wDf3 wFs3)).map Record.profit = [4] := rfl
    rw [h1]
    norm_num [listMean]
  refine (barAgg_mean_correct wDf3 wFs3 "North").2.2.2 4 ?_
  have h2 : dashBarAgg wDf3 wFs3 = [("North", listMean ((fiber Record.region "North"
      (filteredSubset wDf3 wFs3)).map Record.profit))] := rfl
  rw [h2, hmean]
  exact List.mem_singleton.mpr rfl

/-- C4: invoking the Recompute Step twice with identical Dataset and
identical Filter State yields identical Derived Views: the Bokeh
callback is idempotent on the global state (and the Dash callback is a
pure function of `(df, fs)`). -/
theorem update_all_idempotent (s : GlobalState) (fs : FilterState) :
    update_all (update_all s fs) fs = update_all s fs := rfl

/-- C5: profit-margin computation substitutes denominator 1 when sales is
zero, so it equals `(profit / sales) * 100` for nonzero sales and
`profit * 100` for zero sales, and never divides by zero. -/
theorem profit_margin_total (s p : ℚ) (rg c : String) (d : ℕ) :
    (mkRecord s p rg c d).profit_margin =
      if s = 0 then p * 100 else (p / s) * 100 := by
  unfold mkRecord
  by_cases h : s = 0
  · simp [h]
  · simp [h]

/-- C6: an empty selected region set or an empty selected category set
yields an empty filtered subset (empty selection excludes everything). -/
theorem empty_selection_excludes_all (df : List Record) (fs : FilterState)
    (h : fs.regions = [] ∨ fs.categories = []) : filteredSubset df fs = [] := by
  unfold filteredSubset
  rw [List.filter_eq_nil_iff]
  intro r _
  rcases h with h | h <;> simp [recordMatches, h]

/-- C6 witness: a concrete one-record frame with an empty region
selection filters to nothing. -/
theorem empty_selection_excludes_all_witness :
    filteredSubset [mkRecord 10 2 "North" "Books" 0] ⟨[], ["Books"], 0, 100⟩ = [] :=
  empty_selection_excludes_all _ _ (Or.inl rfl)

/-- C7: selecting all regions, all categories and the sales range
`[min, max]` of the whole Dataset reproduces the full Dataset (same
rows, same length) and aggregates equal to the unfiltered group-bys, in
both variants. -/
theorem full_filter_reproduces_dataset (df : List Record)
    (hcov : ∀ r ∈ df, r.region ∈ (fullFilter df).regions ∧
      r.category ∈ (fullFilter df).categories) :
    filteredSubset df (fullFilter df) = df
    ∧ (filteredSubset df (fullFilter df)).length = df.length
    ∧ bokehLineAgg (withSize (filteredSubset df (fullFilter df))) = bokehLineAgg df
    ∧ bokehBarAgg (withSize (filteredSubset df (fullFilter df))) = bokehBarAgg df
    ∧ dashLineAgg df (fullFilter df) = groupSumBy Record.date Record.sales df
    ∧ dashBarAgg df (fullFilter df) = groupMeanBy Record.region Record.profit df := by
  have hfull : filteredSubset df (fullFilter df) = df := by
    unfold filteredSubset
    rw [List.filter_eq_self]
    intro r hr
    have h1 := (hcov r hr).1
    have h2 := (hcov r hr).2
    have h3 : (fullFilter df).lo ≤ r.sales := salesMin_le hr
    have h4 : r.sales ≤ (fullFilter df).hi := le_salesMax hr
    simp [recordMatches, h1, h2, h3, h4]
  refine ⟨hfull, by rw [hfull], ?_, ?_, ?_, ?_⟩
  · rw [hfull, bokehLineAgg_withSize]
  · rw [hfull, bokehBarAgg_withSize]
  · unfold dashLineAgg
    rw [hfull]
  · unfold dashBarAgg
    rw [hfull]

/-- C7 witness: a concrete two-record frame is reproduced in full by the
all-inclusive Filter State, with matching unfiltered aggregates. -/
theorem full_filter_reproduces_dataset_witness :
    filteredSubset [mkRecord 10 2 "North" "Books" 0, mkRecord 3 1 "South" "Food" 5]
        (fullFilter [mkRecord 10 2 "North" "Books" 0, mkRecord 3 1 "South" "Food" 5])
      = [mkRecord 10 2 "North" "Books" 0, mkRecord 3 1 "South" "Food" 5]
    ∧ dashBarAgg [mkRecord 10 2 "North" "Books" 0, mkRecord 3 1 "South" "Food" 5]
        (fullFilter [mkRecord 10 2 "North" "Books" 0, mkRecord 3 1 "South" "Food" 5])
      = groupMeanBy Record.region Record.profit
          [mkRecord 10 2 "North" "Books" 0, mkRecord 3 1 "South" "Food" 5] := by
  have h := full_filter_reproduces_dataset
    [mkRecord 10 2 "North" "Books" 0, mkRecord 3 1 "South" "Food" 5] (by decide)
  exact ⟨h.1, h.2.2.2.2.2⟩

/-- C8: the Recompute Step has no error conditions: an inverted range
(`lo > hi`) filters to nothing, and whenever the filtered subset is
empty every published Derived View is empty, in both variants. -/
theorem empty_subset_empty_aggregates (df : List Record) (fs : FilterState) :
    (fs.hi < fs.lo → filteredSubset df fs = [])
    ∧ (filteredSubset df fs = [] →
        withSize (filteredSubset df fs) = []
        ∧ bokehLineAgg (withSize (filteredSubset df fs)) = []
        ∧ bokehBarAgg (withSize (filteredSubset df fs)) = []
        ∧ dashLineAgg df fs = []
        ∧ dashBarAgg df fs = []) := by
  constructor
  · intro hlt
    unfold filteredSubset
    rw [List.filter_eq_nil_iff]
    intro r _
    simp only [recordMatches, Bool.and_eq_true, decide_eq_true_eq, not_and]
    intro hx hle
    have h1 := hx.2
    linarith
  · intro h
    have h2 : withSize (filteredSubset df fs) = [] := by rw [h]; rfl
    refine ⟨h2, ?_, ?_, ?_, ?_⟩
    · rw [h2]
      rfl
    · rw [h2]
      rfl
    · unfold dashLineAgg
      rw [h]
      rfl
    · unfold dashBarAgg
      rw [h]
      rfl

/-- C8 witness: a concrete inverted range filters a one-record frame to
nothing and yields an empty Dash time-series aggregate. -/
theorem empty_subset_empty_aggregates_witness :
    filteredSubset [mkRecord 10 2 "North" "Books" 0] ⟨["North"], ["Books"], 5, 1⟩ = []
    ∧ dashLineAgg [mkRecord 10 2 "North" "Books" 0] ⟨["North"], ["Books"], 5, 1⟩ = [] := by
  have h := empty_subset_empty_aggregates [mkRecord 10 2 "North" "Books" 0]
    ⟨["North"], ["Books"], 5, 1⟩
  have he := h.1 (by norm_num)
  exact ⟨he, (h.2 he).2.2.2.1⟩

/-- C9: the rows of the time-series aggregate are ordered by date
strictly ascending: calendar-day bins in the Bokeh variant, raw date
keys in the Dash variant. -/
theorem lineAgg_dates_strictly_ascending (df : List Record) (fs : FilterState) :
    ((bokehLineAgg (withSize (filteredSubset df fs))).map Prod.fst).Pairwise (· < ·)
    ∧ ((dashLineAgg df fs).map Prod.fst).Pairwise (· < ·) := by
  constructor
  · rw [bokehLineAgg_withSize, map_fst_bokehLineAgg]
    exact pairwise_lt_dayBins _
  · unfold dashLineAgg
    rw [map_fst_groupSumBy]
    exact pairwise_lt_groupKeys _ _

/-- C10: the Bokeh callback leaves the global DataFrame `df` unchanged:
the `size` column is rewritten only on the copied filtered frame, never
on `df`. -/
theorem update_all_preserves_df (s : GlobalState) (fs : FilterState) :
    (update_all s fs).df = s.df := rfl

end InteractiveViz
